import Mathlib

/-!
Verification development for the gcs-video-analysis repository.

The repository is a Node.js service that ingests Pub/Sub push deliveries
announcing uploaded video files, serializes the processing work through an
in-process queue guarded by an `isProcessing` flag, aggregates per-frame
detections into per-entity statistics, categorizes the aggregated entities
by keyword taxonomy, and persists results in Firestore with a fallback
identifier when the store is unavailable.

This file shallowly embeds the relevant JavaScript functions:
  * the object-aggregation pass of `optimizeVideoData` from the
    OpenAI-variant service (src/unnamed/part_001),
  * the object-aggregation pass of `optimizeVideoData` from the
    Gemini/Firestore-variant service (in src/video-processor-src/config/
    constants.js, second service document), including its frame-interval
    and confidence-threshold filters,
  * `categorizeLabels` from src/video-processor-src/utils/categorizers.js,
  * `storeVideoAnalysis` / `storeProcessedAnalysis` / `storeFallback` from
    the Firestore service (src/unnamed/part_003),
  * the Pub/Sub middleware, the `POST /` admission handler and the
    `processQueue` worker of the first full service document in
    src/video-processor-src/config/constants.js (the variant that marks a
    message id as processed only after a successful run), as a timed state
    machine.

Numbers that JavaScript stores as IEEE doubles are modelled as rationals
(`ℚ`); every arithmetic operation the embedded code performs on the inputs
used here is exact in doubles as well.
-/

/-! ## Small utilities shared by the embeddings -/

/-- Does the character list start with the given pattern?
(Helper for the JavaScript `String.prototype.includes` substring test.) -/
def leadMatch : List Char → List Char → Bool
  | [], _ => true
  | _ :: _, [] => false
  | p :: ps, c :: cs => p == c && leadMatch ps cs

/-- Does `needle` occur as a contiguous run inside `hay`? -/
def hasRun (needle : List Char) : List Char → Bool
  | [] => needle.isEmpty
  | c :: cs => leadMatch needle (c :: cs) || hasRun needle cs

/-- JavaScript `hay.includes(sub)`: substring containment. -/
def jsIncludes (hay sub : String) : Bool :=
  hasRun sub.data hay.data

/-- JavaScript `s.toLowerCase()`; all strings the embedded code lowercases
are ASCII, where per-character lowering matches the JavaScript semantics. -/
def strLower (s : String) : String :=
  ⟨s.data.map Char.toLower⟩

/-- JavaScript `s.endsWith(suffix)`. -/
def strEndsWith (s suffix : String) : Bool :=
  leadMatch suffix.data.reverse s.data.reverse

/-- Truncation toward zero, as JavaScript does for its `%` operator. -/
def jsTrunc (q : ℚ) : ℤ :=
  if 0 ≤ q then ⌊q⌋ else -⌊-q⌋

/-- JavaScript remainder `a % b` on finite numbers (`b ≠ 0`):
`a - b * trunc (a / b)`; the result carries the sign of `a`. -/
def jsMod (a b : ℚ) : ℚ :=
  a - b * (jsTrunc (a / b) : ℚ)

/-- First value bound to `k` in an insertion-ordered association list
(JavaScript object keyed by strings). -/
def findVal? {α : Type} (m : List (String × α)) (k : String) : Option α :=
  match m with
  | [] => none
  | (k', v) :: rest => if k' = k then some v else findVal? rest k

/-- Replace the value bound to `k` (every binding of `k`; the maps built
below bind each key once) by `f` of it.  Models `acc[key] = ...` mutation. -/
def updateVal {α : Type} (m : List (String × α)) (k : String) (f : α → α) :
    List (String × α) :=
  m.map (fun p => if p.1 = k then (p.1, f p.2) else p)

/-! ## Raw detection records

`processVideo` flattens the Video Intelligence responses into records
`{description, confidence, timestamp}` (object tracks and labels) before
aggregation; these are the aggregator inputs. -/

structure TrackedObject where
  description : String
  confidence : ℚ
  timestamp : ℚ
deriving Repr, DecidableEq

structure DetectedLabel where
  description : String
  confidence : ℚ
  timestamp : ℚ
deriving Repr, DecidableEq

/-! ## Object aggregation of `optimizeVideoData` (src/unnamed/part_001)

The OpenAI-variant service aggregates tracked objects with no filtering:
every detection is folded into the entry for its lowercased description,
and a second pass computes averages, the time span and the frequency.
The JavaScript entry also carries a `duration` field (initialized to 0 and
never updated) and a `context` string list filled by the statistics pass;
`timeSpan` is absent until the statistics pass writes it, modelled as 0 in
the initial entry. -/

structure P1Entry where
  count : ℕ
  confidence : ℚ
  occurrences : List (ℚ × ℚ)
  timestamps : List ℚ
  firstSeen : ℚ
  lastSeen : ℚ
  averageConfidence : ℚ
  maxConfidence : ℚ
  minConfidence : ℚ
  duration : ℚ
  frequency : ℚ
  timeSpan : ℚ
  context : List String
deriving Repr, DecidableEq

/-- The entry created when a key is first seen (part_001 lines 109-124). -/
def p1Init (obj : TrackedObject) : P1Entry where
  count := 0
  confidence := 0
  occurrences := []
  timestamps := []
  firstSeen := obj.timestamp
  lastSeen := obj.timestamp
  averageConfidence := 0
  maxConfidence := obj.confidence
  minConfidence := obj.confidence
  duration := 0
  frequency := 0
  timeSpan := 0
  context := []

/-- One step of the `objects.reduce` fold (part_001 lines 103-146). -/
def p1Step (acc : List (String × P1Entry)) (obj : TrackedObject) :
    List (String × P1Entry) :=
  let key := strLower obj.description
  if key = "" then acc
  else
    let acc := if (findVal? acc key).isSome then acc else acc ++ [(key, p1Init obj)]
    updateVal acc key (fun e =>
      { e with
        occurrences := e.occurrences ++ [(obj.timestamp, obj.confidence)]
        count := e.count + 1
        confidence := e.confidence + obj.confidence
        timestamps := e.timestamps ++ [obj.timestamp]
        lastSeen := obj.timestamp
        maxConfidence := max e.maxConfidence obj.confidence
        minConfidence := min e.minConfidence obj.confidence })

/-- The statistics pass over one entry (part_001 lines 149-176): average
confidence, sorted timestamps, `timeSpan = lastSeen - firstSeen`,
`frequency = count / (timeSpan || 1)` — the JavaScript `|| 1` replaces the
denominator only when `timeSpan` is exactly 0 — and the context notes. -/
def p1Stats (e : P1Entry) : P1Entry :=
  if 0 < e.count then
    let avg := e.confidence / (e.count : ℚ)
    let ts := e.lastSeen - e.firstSeen
    let freq := (e.count : ℚ) / (if ts = 0 then 1 else ts)
    { e with
      averageConfidence := avg
      timestamps := e.timestamps.mergeSort (fun a b => a ≤ b)
      timeSpan := ts
      frequency := freq
      context :=
        (if 1/2 < freq then ["Frequently visible"] else []) ++
        (if 10 < ts then ["Long duration presence"] else []) ++
        (if 7/10 < avg then ["High confidence detection"] else []) }
  else e

/-- `optimizeVideoData`'s object output in part_001: fold all detections,
then run the statistics pass on every entry with positive count. -/
def optimizeObjectsP1 (objs : List TrackedObject) : List (String × P1Entry) :=
  (objs.foldl p1Step []).map (fun p => (p.1, p1Stats p.2))

/-! ## Object aggregation of `optimizeVideoData` (constants.js, second
service document, lines 635-666 of the concatenated file)

The Gemini/Firestore-variant service aggregates tracked objects with two
filters: a detection is folded into its entry only when its timestamp is an
exact multiple of `FRAME_INTERVAL_SECONDS = 1` (JavaScript
`obj.timestamp % FRAME_INTERVAL_SECONDS === 0`), and after averaging, an
entry whose mean confidence is below `CONFIDENCE_THRESHOLD = 0.7` is
deleted — but only entries with `count > 0` are touched by that second
pass.  Note the entry for a key is created *before* the frame-interval test
runs, so a key all of whose detections fail the test keeps an empty entry. -/

structure CEntry where
  count : ℕ
  confidence : ℚ
  occurrences : List ℚ
deriving Repr, DecidableEq

def FRAME_INTERVAL_SECONDS : ℚ := 1

def CONFIDENCE_THRESHOLD : ℚ := 7/10

/-- One step of the `objects.reduce` fold (constants.js lines 635-655). -/
def cStep (acc : List (String × CEntry)) (obj : TrackedObject) :
    List (String × CEntry) :=
  let key := strLower obj.description
  if key = "" then acc
  else
    let acc := if (findVal? acc key).isSome then acc
      else acc ++ [(key, ⟨0, 0, []⟩)]
    if jsMod obj.timestamp FRAME_INTERVAL_SECONDS = 0 then
      updateVal acc key (fun e =>
        ⟨e.count + 1, e.confidence + obj.confidence,
          e.occurrences ++ [obj.timestamp]⟩)
    else acc

/-- The averaging/deletion pass (constants.js lines 658-666): entries with
positive count get their confidence replaced by the mean and are deleted
when that mean is below the threshold; entries with count 0 are untouched. -/
def cFinalize (m : List (String × CEntry)) : List (String × CEntry) :=
  m.filterMap (fun p =>
    if 0 < p.2.count then
      let avg := p.2.confidence / (p.2.count : ℚ)
      if avg < CONFIDENCE_THRESHOLD then none
      else some (p.1, ⟨p.2.count, avg, p.2.occurrences⟩)
    else some p)

/-- `optimizeVideoData`'s `optimizedObjects` output in the
Gemini/Firestore-variant service. -/
def optimizeObjectsC (objs : List TrackedObject) : List (String × CEntry) :=
  cFinalize (objs.foldl cStep [])

/-! ## Label categorization (src/video-processor-src/utils/categorizers.js)

`categorizeLabels` pushes each detected label into the first of five
buckets whose keyword list has a member occurring as a substring of the
lowercased description, testing rooms, then styles, then materials, then
the literal substrings "feature"/"design", else `other`. -/

def roomKeywords : List String :=
  ["kitchen", "bedroom", "bathroom", "living room", "dining room",
   "garage", "basement"]

def styleKeywords : List String :=
  ["modern", "traditional", "contemporary", "classic", "minimalist",
   "rustic"]

def materialKeywords : List String :=
  ["wood", "marble", "granite", "stainless steel", "ceramic", "glass",
   "concrete"]

structure LabelEntry where
  name : String
  confidence : ℚ
deriving Repr, DecidableEq

structure CategorizedLabels where
  rooms : List LabelEntry
  styles : List LabelEntry
  materials : List LabelEntry
  features : List LabelEntry
  other : List LabelEntry
deriving Repr, DecidableEq

/-- The body of the `detectedLabels.forEach` in `categorizeLabels`
(categorizers.js lines 42-77). -/
def clStep (acc : CategorizedLabels) (label : DetectedLabel) :
    CategorizedLabels :=
  let l := strLower label.description
  let entry : LabelEntry := ⟨label.description, label.confidence⟩
  if roomKeywords.any (fun kw => jsIncludes l kw) then
    { acc with rooms := acc.rooms ++ [entry] }
  else if styleKeywords.any (fun kw => jsIncludes l kw) then
    { acc with styles := acc.styles ++ [entry] }
  else if materialKeywords.any (fun kw => jsIncludes l kw) then
    { acc with materials := acc.materials ++ [entry] }
  else if jsIncludes l "feature" || jsIncludes l "design" then
    { acc with features := acc.features ++ [entry] }
  else
    { acc with other := acc.other ++ [entry] }

/-- `categorizeLabels` (categorizers.js lines 33-80). -/
def categorizeLabels (labels : List DetectedLabel) : CategorizedLabels :=
  labels.foldl clStep ⟨[], [], [], [], []⟩

/-- The five bucket names of the label categorizer. -/
inductive Bucket
  | rooms
  | styles
  | materials
  | features
  | other
deriving Repr, DecidableEq

/-- The bucket the first-match-wins keyword chain assigns to a
description: the same tests, in the same order, as `clStep`. -/
def bucketOf (desc : String) : Bucket :=
  let l := strLower desc
  if roomKeywords.any (fun kw => jsIncludes l kw) then .rooms
  else if styleKeywords.any (fun kw => jsIncludes l kw) then .styles
  else if materialKeywords.any (fun kw => jsIncludes l kw) then .materials
  else if jsIncludes l "feature" || jsIncludes l "design" then .features
  else .other

/-- The labels the categorizer places in bucket `b`, described as a filter
of the input by `bucketOf`. -/
def bucketFilter (labels : List DetectedLabel) (b : Bucket) : List LabelEntry :=
  (labels.filter (fun lb => bucketOf lb.description = b)).map
    (fun lb => ⟨lb.description, lb.confidence⟩)

/-! ## Firestore persistence (src/unnamed/part_003)

`storeVideoAnalysis` and `storeProcessedAnalysis` throw on invalid input,
retry initialization when the service is not initialized, fall back to
`storeFallback` (which returns a `fallback_...` identifier and, if its own
body threw, an `error_...` identifier — its body cannot throw here) when
initialization still fails, and otherwise write the document; the outer
`catch` of both functions rethrows any error, including a failed write.
The environment of one call is summarized by two booleans: whether an
initialization attempt would succeed and whether a `docRef.set` write
would succeed; `now` stands for `Date.now()`. -/

structure FsEnv where
  initWorks : Bool
  setWorks : Bool
deriving Repr, DecidableEq

/-- `storeFallback` (part_003 lines 165-195): logs a summary and returns
`fallback_<fileName>_<Date.now()>`; its `catch` branch, which would return
an `error_...` identifier, is unreachable because the body only builds and
logs a record. -/
def storeFallback (fileName : String) (now : ℕ) : String :=
  "fallback_" ++ fileName ++ "_" ++ toString now

/-- `storeVideoAnalysis` (part_003 lines 97-162).  `hasResults` stands for
`analysisResults` being non-null; a document reference keyed by `fileName`
has `docRef.id = fileName`.  Errors (`throw`) are modelled as `.error`. -/
def storeVideoAnalysis (env : FsEnv) (isInitialized : Bool)
    (fileName : String) (hasResults : Bool) (now : ℕ) :
    Except String String :=
  if fileName = "" ∨ ¬hasResults then
    .error "Invalid data provided for storage"
  else
    let inited := isInitialized || env.initWorks
    if ¬inited then .ok (storeFallback fileName now)
    else if env.setWorks then .ok fileName
    else .error "write failed"

/-- `storeProcessedAnalysis` (part_003 lines 226-295), with the same
environment model; `hasDetails` stands for `propertyDetails` non-null. -/
def storeProcessedAnalysis (env : FsEnv) (isInitialized : Bool)
    (fileName firestoreId : String) (hasDetails : Bool) (now : ℕ) :
    Except String String :=
  if fileName = "" ∨ firestoreId = "" ∨ ¬hasDetails then
    .error "Invalid data provided for storage"
  else
    let inited := isInitialized || env.initWorks
    if ¬inited then .ok (storeFallback fileName now)
    else if env.setWorks then .ok fileName
    else .error "write failed"

/-! ## The ingress handler and single-flight queue (constants.js, first
service document, lines 89-543 of the concatenated file)

The service keeps three process-lifetime sets (`processedFiles`,
`failedFiles`, `processedMessageIds`), a FIFO `processingQueue` and an
`isProcessing` flag.  JavaScript runs this code single-threaded: each of
the following is one atomic segment (no `await` inside it) and is one step
of the machine:

  * `arrive`: the Pub/Sub middleware plus the `POST /` handler body up to
    and including the synchronous front of the `processQueue()` call it
    makes (in `processQueue`, the `isProcessing` check, the flag set and
    the `shift` happen before the first `await`);
  * `complete`: the end of an awaited `processVideo` call — updating
    `processedFiles`/`failedFiles`, marking the message id on success,
    sending the deferred HTTP response, clearing the flag and scheduling
    the 12000 ms `setTimeout(processQueue, 12000)` when the queue is
    non-empty;
  * `timerFire`: that timeout callback running `processQueue`.

This is the variant that marks a message id as processed only after a
successful run (constants.js lines 327-343).  `running` lists the jobs
currently inside `processVideo` — the code's `isProcessing` boolean is kept
alongside because the guard in `processQueue` reads the boolean, not the
list.  `runs`, `completions` and `responses` are observation logs: each
started run with its start time, each finished run with its completion
time, and every HTTP response in the order it was sent. -/

structure Job where
  bucketName : String
  fileName : String
  messageId : Option String
deriving Repr, DecidableEq

/-- A decoded request body: `messageId` is present for Pub/Sub push
envelopes (the middleware decoded `message.data` into the body), absent
for raw posts; `name` may be missing. -/
structure Req where
  messageId : Option String
  bucket : String
  name : Option String
deriving Repr, DecidableEq

/-- The distinct HTTP responses of the service. -/
inductive HResp
  | msgAlreadyProcessed
  | missingFileName
  | fileAlreadyProcessed
  | fileAlreadyFailed
  | notAVideo
  | queueFull
  | alreadyInQueue
  | processedOk
  | processingFailed
deriving Repr, DecidableEq

/-- Which responses are HTTP 2xx.  `missingFileName` is 400, `queueFull`
is 429, `processingFailed` is 500; everything else is 200. -/
def HResp.isSuccess : HResp → Bool
  | .missingFileName => false
  | .queueFull => false
  | .processingFailed => false
  | _ => true

def MAX_QUEUE_SIZE : ℕ := 10

def PROCESSING_DELAY : ℕ := 12000

def videoExtensions : List String :=
  [".mp4", ".mov", ".avi", ".mkv", ".webm"]

/-- `videoExtensions.some((ext) => fileName.toLowerCase().endsWith(ext))`. -/
def isVideoFile (fileName : String) : Bool :=
  videoExtensions.any (fun ext => strEndsWith (strLower fileName) ext)

/-- Add to a JavaScript `Set` of strings (membership-deduplicated). -/
def setAdd (s : List String) (x : String) : List String :=
  if x ∈ s then s else s ++ [x]

/-- Add the optional message id to `processedMessageIds`, as the handler's
`if (messageId) processedMessageIds.add(messageId)`. -/
def markMsg (ids : List String) : Option String → List String
  | none => ids
  | some m => setAdd ids m

structure QState where
  processedFiles : List String
  failedFiles : List String
  processedMessageIds : List String
  queue : List Job
  running : List Job
  isProcessing : Bool
  timer : Option ℕ
  responses : List HResp
  runs : List (String × ℕ)
  completions : List (String × ℕ)
deriving Repr, DecidableEq

def QState.init : QState :=
  ⟨[], [], [], [], [], false, none, [], [], []⟩

/-- The synchronous front of `processQueue` (constants.js lines 314-327):
if nothing is processing and the queue is non-empty, set the flag, shift
the head job and enter `processVideo` (a run starts at time `t`). -/
def tryStart (t : ℕ) (s : QState) : QState :=
  if s.isProcessing then s
  else
    match s.queue with
    | [] => s
    | j :: rest =>
      { s with
        queue := rest
        isProcessing := true
        running := s.running ++ [j]
        runs := s.runs ++ [(j.fileName, t)] }

/-- Append a response to the observation log. -/
def QState.respond (s : QState) (r : HResp) : QState :=
  { s with responses := s.responses ++ [r] }

/-- Has this (optional) message id been seen before?  The middleware's
`processedMessageIds.has(messageId)` test. -/
def msgSeen (ids : List String) : Option String → Bool
  | none => false
  | some m => decide (m ∈ ids)

/-- One inbound request at time `t`: the Pub/Sub middleware (constants.js
lines 108-160) followed by the `POST /` handler (lines 380-525).  The
first component is the response the handler sends synchronously — `none`
when the job is admitted, because the admitted job's response is deferred
until its run completes.  Every short-circuit branch of the handler marks
the message id; the middleware short-circuit leaves the state otherwise
unchanged. -/
def arrive (t : ℕ) (r : Req) (s : QState) : Option HResp × QState :=
  if msgSeen s.processedMessageIds r.messageId then
    (some .msgAlreadyProcessed, s.respond .msgAlreadyProcessed)
  else
    match r.name with
    | none => (some .missingFileName, s.respond .missingFileName)
    | some fn =>
      if fn ∈ s.processedFiles then
        (some .fileAlreadyProcessed,
          { s.respond .fileAlreadyProcessed with
            processedMessageIds := markMsg s.processedMessageIds r.messageId })
      else if fn ∈ s.failedFiles then
        (some .fileAlreadyFailed,
          { s.respond .fileAlreadyFailed with
            processedMessageIds := markMsg s.processedMessageIds r.messageId })
      else if ¬isVideoFile fn then
        (some .notAVideo,
          { s.respond .notAVideo with
            processedMessageIds := markMsg s.processedMessageIds r.messageId })
      else if MAX_QUEUE_SIZE ≤ s.queue.length then
        (some .queueFull,
          { s.respond .queueFull with
            processedMessageIds := markMsg s.processedMessageIds r.messageId })
      else if s.queue.any (fun item => item.fileName == fn) then
        (some .alreadyInQueue,
          { s.respond .alreadyInQueue with
            processedMessageIds := markMsg s.processedMessageIds r.messageId })
      else
        (none,
          tryStart t { s with queue := s.queue ++ [⟨r.bucket, fn, r.messageId⟩] })

/-- The awaited `processVideo` of the head running job returning at time
`t` with outcome `ok` (constants.js lines 292-310 inside `processVideo`
and 334-377 inside `processQueue`): on success the file is marked
processed, the message id marked, and a 200 sent; on failure the file is
marked failed and a 500 sent; then the flag clears and, if the queue is
non-empty, `setTimeout(processQueue, 12000)` is scheduled. -/
def complete (t : ℕ) (ok : Bool) (s : QState) : QState :=
  match s.running with
  | [] => s
  | j :: rest =>
    let s :=
      if ok then
        { s with
          processedFiles := setAdd s.processedFiles j.fileName
          processedMessageIds := markMsg s.processedMessageIds j.messageId
          responses := s.responses ++ [HResp.processedOk] }
      else
        { s with
          failedFiles := setAdd s.failedFiles j.fileName
          responses := s.responses ++ [HResp.processingFailed] }
    let s :=
      { s with
        running := rest
        isProcessing := false
        completions := s.completions ++ [(j.fileName, t)] }
    if s.queue.isEmpty then s else { s with timer := some (t + PROCESSING_DELAY) }

/-- The scheduled `processQueue` callback firing at time `t`. -/
def timerFire (t : ℕ) (s : QState) : QState :=
  if s.timer = some t then tryStart t { s with timer := none } else s

/-- The events of the machine. -/
inductive Ev
  | arrive (r : Req)
  | complete (ok : Bool)
  | timerFire
deriving Repr, DecidableEq

/-- One timed step. -/
def stepEv (t : ℕ) (e : Ev) (s : QState) : QState :=
  match e with
  | .arrive r => (arrive t r s).2
  | .complete ok => complete t ok s
  | .timerFire => timerFire t s

/-- Run a timed event trace from a state. -/
def runTrace (s : QState) (tr : List (ℕ × Ev)) : QState :=
  tr.foldl (fun s te => stepEv te.1 te.2 s) s

/-- States reachable from the empty boot state by timed events. -/
inductive Reachable : QState → Prop
  | init : Reachable QState.init
  | step {s : QState} (t : ℕ) (e : Ev) : Reachable s → Reachable (stepEv t e s)

/-- JavaScript `s.startsWith(prefix)` as used on storage identifiers. -/
def strStartsWith (s pre : String) : Bool :=
  leadMatch pre.data s.data

/-- A synchronous admission response that is either an HTTP success or the
429 backpressure rejection — i.e. anything except an admission (`none`),
the 400 for a missing name, or the deferred 500. -/
def isShortCircuit : Option HResp → Bool
  | none => false
  | some x => x.isSuccess || x == HResp.queueFull

/-! ## Helper lemmas about association lists -/

theorem findVal?_map {α β : Type} (f : α → β) (m : List (String × α))
    (k : String) :
    findVal? (m.map (fun p => (p.1, f p.2))) k = (findVal? m k).map f := by
  induction m with
  | nil => rfl
  | cons p rest ih => by_cases h : p.1 = k <;> simp [findVal?, h, ih]

theorem findVal?_append_ne {α : Type} (m : List (String × α)) (k k2 : String)
    (v : α) (h : k2 ≠ k) :
    findVal? (m ++ [(k2, v)]) k = findVal? m k := by
  induction m with
  | nil => simp [findVal?, h]
  | cons p rest ih => by_cases hp : p.1 = k <;> simp [findVal?, hp, ih]

theorem findVal?_append_self {α : Type} (m : List (String × α)) (k : String)
    (v : α) (h : findVal? m k = none) :
    findVal? (m ++ [(k, v)]) k = some v := by
  induction m with
  | nil => simp [findVal?]
  | cons p rest ih =>
    by_cases hp : p.1 = k
    · simp [findVal?, hp] at h
    · simp [findVal?, hp] at h ⊢
      exact ih h

theorem findVal?_updateVal_ne {α : Type} (m : List (String × α))
    (k k2 : String) (f : α → α) (h : k2 ≠ k) :
    findVal? (updateVal m k2 f) k = findVal? m k := by
  induction m with
  | nil => rfl
  | cons p rest ih =>
    simp only [updateVal, List.map_cons] at ih ⊢
    by_cases hp2 : p.1 = k2
    · have hpk : ¬p.1 = k := by rw [hp2]; exact h
      rw [if_pos hp2]
      simp [findVal?, hpk, ih]
    · rw [if_neg hp2]
      by_cases hpk : p.1 = k <;> simp [findVal?, hpk, ih]

/-! ## C4: derived statistics of the part_001 aggregator -/

/-- C4 (amended): for every aggregated entity with `count > 0` produced by
the part_001 aggregator, `timeSpan = lastSeen - firstSeen`, and
`frequency = count / timeSpan` unless `timeSpan` is exactly 0, in which
case the denominator is 1 (JavaScript `count / (timeSpan || 1)`) — the
denominator is *not* `max (timeSpan, 1)`. -/
theorem c4_derived_stats (objs : List TrackedObject) (k : String)
    (c : ℕ) (ts ls fs fr : ℚ)
    (hfind : (findVal? (optimizeObjectsP1 objs) k).map
        (fun e => (e.count, e.timeSpan, e.lastSeen, e.firstSeen, e.frequency)) =
      some (c, ts, ls, fs, fr))
    (hc : 0 < c) :
    ts = ls - fs ∧ fr = (c : ℚ) / (if ts = 0 then 1 else ts) := by
  rw [optimizeObjectsP1, findVal?_map] at hfind
  cases hraw : findVal? (objs.foldl p1Step []) k with
  | none => rw [hraw] at hfind; simp at hfind
  | some e0 =>
    rw [hraw] at hfind
    by_cases h0 : 0 < e0.count
    · simp [p1Stats, h0] at hfind
      obtain ⟨h1, h2, h3, h4, h5⟩ := hfind
      subst h1 h2 h3 h4 h5
      exact ⟨rfl, rfl⟩
    · simp [p1Stats, h0] at hfind
      obtain ⟨h1, -, -, -, -⟩ := hfind
      omega

/-- C4: witness instantiating `c4_derived_stats` at a concrete detection
list (one detection of "lamp" at timestamp 1 with confidence 0.9). -/
theorem c4_derived_stats_witness :
    (findVal? (optimizeObjectsP1 [⟨"lamp", 9/10, 1⟩]) "lamp").map
        (fun e => (e.count, e.timeSpan, e.lastSeen, e.firstSeen, e.frequency)) =
      some (1, 0, 1, 1, 1) ∧ 0 < 1 ∧
    ((0 : ℚ) = 1 - 1 ∧ (1 : ℚ) = ((1 : ℕ) : ℚ) / (if (0 : ℚ) = 0 then 1 else 0)) := by
  have h : (findVal? (optimizeObjectsP1 [⟨"lamp", 9/10, 1⟩]) "lamp").map
        (fun e => (e.count, e.timeSpan, e.lastSeen, e.firstSeen, e.frequency)) =
      some (1, 0, 1, 1, 1) := by
    norm_num [optimizeObjectsP1, p1Step, p1Stats, p1Init, findVal?, updateVal,
      show strLower "lamp" = "lamp" by decide]
  exact ⟨h, Nat.one_pos, c4_derived_stats _ _ _ _ _ _ _ h Nat.one_pos⟩

/-- C4 (counterexample): two detections of "lamp" at timestamps 0 and 0.5
give `timeSpan = 0.5` and `frequency = 2 / 0.5 = 4`, whereas the claimed
formula `count / max (timeSpan, 1)` gives `2 / 1 = 2`: for
`0 < timeSpan < 1` the code divides by `timeSpan`, not by 1. -/
theorem c4_counterexample :
    (findVal? (optimizeObjectsP1 [⟨"lamp", 1/2, 0⟩, ⟨"lamp", 1/2, 1/2⟩]) "lamp").map
        (fun e => (e.frequency, (e.count : ℚ) / max e.timeSpan 1)) = some (4, 2) ∧
    (4 : ℚ) ≠ 2 := by
  constructor
  · norm_num [optimizeObjectsP1, p1Step, p1Stats, p1Init, findVal?, updateVal,
      show strLower "lamp" = "lamp" by decide]
  · norm_num

/-! ## C7: aggregation arithmetic -/

/-- C7: aggregating `[("lamp", 0.9, 1), ("lamp", 0.5, 2)]` yields one
entity keyed "lamp" with `count = 2`, `averageConfidence = 0.7`,
`firstSeen = 1`, `lastSeen = 2`. -/
theorem c7_aggregation_arithmetic :
    (findVal? (optimizeObjectsP1 [⟨"lamp", 9/10, 1⟩, ⟨"lamp", 1/2, 2⟩]) "lamp").map
      (fun e => (e.count, e.averageConfidence, e.firstSeen, e.lastSeen)) =
    some (2, 7/10, 1, 2) := by
  norm_num [optimizeObjectsP1, p1Step, p1Stats, p1Init, findVal?, updateVal,
    show strLower "lamp" = "lamp" by decide]

/-! ## C6: the 0.7 confidence threshold on the aggregate mean -/

/-- C6: with threshold 0.7, an entity whose mean confidence is 0.69 is
deleted from the aggregate mapping, one whose mean is exactly 0.70 is
kept, and the filter applies to the per-entity mean after aggregation — a
0.5-confidence detection survives inside an entity whose mean is 0.7. -/
theorem c6_confidence_filter :
    findVal? (optimizeObjectsC [⟨"lamp", 69/100, 0⟩]) "lamp" = none ∧
    (findVal? (optimizeObjectsC [⟨"lamp", 7/10, 0⟩]) "lamp").map
      (fun e => e.confidence) = some (7/10) ∧
    (findVal? (optimizeObjectsC [⟨"lamp", 9/10, 0⟩, ⟨"lamp", 1/2, 1⟩]) "lamp").map
      (fun e => (e.count, e.confidence)) = some (2, 7/10) := by
  refine ⟨?_, ?_, ?_⟩ <;>
    norm_num +decide [optimizeObjectsC, cStep, cFinalize, findVal?, updateVal, jsMod,
      jsTrunc, FRAME_INTERVAL_SECONDS, CONFIDENCE_THRESHOLD,
      List.filterMap_cons, List.filterMap_nil,
      show strLower "lamp" = "lamp" by decide]

/-! ## C5: entities with zero surviving occurrences

In the constants.js aggregator the map entry for a key is created before
the frame-interval test, and the averaging/deletion pass skips entries
whose count is 0 — so a key all of whose detections fail the
frame-interval filter stays in the final mapping with `count = 0`. -/

theorem cStep_ne (acc : List (String × CEntry)) (o : TrackedObject) (k : String)
    (h : strLower o.description ≠ k) :
    findVal? (cStep acc o) k = findVal? acc k := by
  unfold cStep
  by_cases hkey : strLower o.description = ""
  · simp [hkey]
  · have hacc2 : findVal? (if (findVal? acc (strLower o.description)).isSome
        then acc else acc ++ [(strLower o.description, ⟨0, 0, []⟩)]) k =
        findVal? acc k := by
      by_cases hs : (findVal? acc (strLower o.description)).isSome
      · simp [hs]
      · simp [hs, findVal?_append_ne _ _ _ _ h]
    by_cases hmod : jsMod o.timestamp FRAME_INTERVAL_SECONDS = 0
    · simp only [hkey, if_neg, ite_false, hmod, ite_true]
      rw [findVal?_updateVal_ne _ _ _ _ h]
      exact hacc2
    · simp only [hkey, if_neg, ite_false, hmod, ite_false]
      exact hacc2

theorem cStep_same_filtered (acc : List (String × CEntry)) (o : TrackedObject)
    (v : CEntry)
    (hmod : jsMod o.timestamp FRAME_INTERVAL_SECONDS ≠ 0)
    (hacc : findVal? acc (strLower o.description) = some v) :
    findVal? (cStep acc o) (strLower o.description) = some v := by
  unfold cStep
  by_cases hkey : strLower o.description = ""
  · rw [hkey] at hacc ⊢
    simp [hacc]
  · simp [hkey, hacc, hmod]

theorem cStep_same_create (acc : List (String × CEntry)) (o : TrackedObject)
    (hne : strLower o.description ≠ "")
    (hmod : jsMod o.timestamp FRAME_INTERVAL_SECONDS ≠ 0)
    (hacc : findVal? acc (strLower o.description) = none) :
    findVal? (cStep acc o) (strLower o.description) = some ⟨0, 0, []⟩ := by
  unfold cStep
  simp [hne, hacc, hmod, findVal?_append_self _ _ _ hacc]

theorem cFold_zero (objs : List TrackedObject) (acc : List (String × CEntry))
    (k : String) (hk : k ≠ "")
    (hall : ∀ o ∈ objs, strLower o.description = k →
      jsMod o.timestamp FRAME_INTERVAL_SECONDS ≠ 0)
    (hacc : findVal? acc k = none ∨ findVal? acc k = some ⟨0, 0, []⟩)
    (hcov : (∃ o ∈ objs, strLower o.description = k) ∨
      findVal? acc k = some ⟨0, 0, []⟩) :
    findVal? (objs.foldl cStep acc) k = some ⟨0, 0, []⟩ := by
  induction objs generalizing acc with
  | nil =>
    rcases hcov with ⟨o, ho, -⟩ | hv
    · exact absurd ho (List.not_mem_nil o)
    · exact hv
  | cons o rest ih =>
    have hall2 : ∀ o2 ∈ rest, strLower o2.description = k →
        jsMod o2.timestamp FRAME_INTERVAL_SECONDS ≠ 0 :=
      fun o2 ho2 hk2 => hall o2 (List.mem_cons_of_mem o ho2) hk2
    simp only [List.foldl_cons]
    by_cases hko : strLower o.description = k
    · have hmod := hall o (List.mem_cons_self o rest) hko
      rcases hacc with hnone | hsome
      · have h2 : findVal? (cStep acc o) k = some ⟨0, 0, []⟩ := by
          rw [← hko] at hnone ⊢
          exact cStep_same_create acc o (by rw [hko]; exact hk) hmod hnone
        exact ih (cStep acc o) hall2 (Or.inr h2) (Or.inr h2)
      · have h2 : findVal? (cStep acc o) k = some ⟨0, 0, []⟩ := by
          rw [← hko] at hsome ⊢
          exact cStep_same_filtered acc o _ hmod hsome
        exact ih (cStep acc o) hall2 (Or.inr h2) (Or.inr h2)
    · have hstep := cStep_ne acc o k hko
      apply ih (cStep acc o) hall2 (by rw [hstep]; exact hacc)
      rcases hcov with ⟨o2, ho2, hk2⟩ | hv
      · rcases List.mem_cons.mp ho2 with rfl | htail
        · exact absurd hk2 hko
        · exact Or.inl ⟨o2, htail, hk2⟩
      · exact Or.inr (by rw [hstep]; exact hv)

theorem cFinalize_keep_zero (m : List (String × CEntry)) (k : String)
    (e : CEntry) (hfind : findVal? m k = some e) (hc : e.count = 0) :
    findVal? (cFinalize m) k = some e := by
  induction m with
  | nil => simp [findVal?] at hfind
  | cons p rest ih =>
    simp only [findVal?] at hfind
    by_cases hp : p.1 = k
    · rw [if_pos hp] at hfind
      injection hfind with he
      subst he
      have h0 : ¬0 < p.2.count := by omega
      simp only [cFinalize, List.filterMap_cons]
      rw [if_neg h0]
      simp [findVal?, hp]
    · rw [if_neg hp] at hfind
      have htail := ih hfind
      simp only [cFinalize] at htail ⊢
      rw [List.filterMap_cons]
      by_cases h0 : 0 < p.2.count
      · by_cases havg : p.2.confidence / (p.2.count : ℚ) < CONFIDENCE_THRESHOLD
        · simp only [h0, if_pos, havg]
          exact htail
        · simp only [h0, if_pos, havg, if_neg, ite_false]
          simp [findVal?, hp]
          exact htail
      · rw [if_neg h0]
        simp [findVal?, hp]
        exact htail

/-- C5 (amended): an entity whose lowercased key occurs among the
detections but all of whose detections are eliminated by the
frame-interval filter is *retained* in the aggregate mapping with
`count = 0` (and confidence 0 and no occurrences) — it is not removed. -/
theorem c5_zero_count_retained (objs : List TrackedObject) (k : String)
    (hk : k ≠ "")
    (hpresent : ∃ o ∈ objs, strLower o.description = k)
    (hall : ∀ o ∈ objs, strLower o.description = k →
      jsMod o.timestamp FRAME_INTERVAL_SECONDS ≠ 0) :
    findVal? (optimizeObjectsC objs) k = some ⟨0, 0, []⟩ := by
  have h1 := cFold_zero objs [] k hk hall (Or.inl rfl) (Or.inl hpresent)
  exact cFinalize_keep_zero _ _ _ h1 rfl

/-- C5 (counterexample): the entity "ghost", whose only detection has the
non-integer timestamp 0.5 under frame interval 1, is present in the final
aggregate mapping with `count = 0` — the claim says it must be absent. -/
theorem c5_counterexample :
    findVal? (optimizeObjectsC [⟨"ghost", 9/10, 1/2⟩]) "ghost" =
      some ⟨0, 0, []⟩ ∧
    findVal? (optimizeObjectsC [⟨"ghost", 9/10, 1/2⟩]) "ghost" ≠ none := by
  have h : findVal? (optimizeObjectsC [⟨"ghost", 9/10, 1/2⟩]) "ghost" =
      some ⟨0, 0, []⟩ := by
    norm_num +decide [optimizeObjectsC, cStep, cFinalize, findVal?, updateVal,
      jsMod, jsTrunc, FRAME_INTERVAL_SECONDS, List.filterMap_cons,
      List.filterMap_nil, show strLower "ghost" = "ghost" by decide]
  exact ⟨h, by rw [h]; exact Option.noConfusion⟩

/-- C5: witness instantiating `c5_zero_count_retained` at the concrete
"ghost" detection list. -/
theorem c5_zero_count_retained_witness :
    ("ghost" : String) ≠ "" ∧
    (∃ o ∈ [(⟨"ghost", 9/10, 1/2⟩ : TrackedObject)], strLower o.description = "ghost") ∧
    (∀ o ∈ [(⟨"ghost", 9/10, 1/2⟩ : TrackedObject)], strLower o.description = "ghost" →
      jsMod o.timestamp FRAME_INTERVAL_SECONDS ≠ 0) ∧
    findVal? (optimizeObjectsC [⟨"ghost", 9/10, 1/2⟩]) "ghost" = some ⟨0, 0, []⟩ := by
  have hk : ("ghost" : String) ≠ "" := by decide
  have hpresent : ∃ o ∈ [(⟨"ghost", 9/10, 1/2⟩ : TrackedObject)],
      strLower o.description = "ghost" :=
    ⟨⟨"ghost", 9/10, 1/2⟩, List.mem_singleton.mpr rfl, by decide⟩
  have hall : ∀ o ∈ [(⟨"ghost", 9/10, 1/2⟩ : TrackedObject)],
      strLower o.description = "ghost" →
      jsMod o.timestamp FRAME_INTERVAL_SECONDS ≠ 0 := by
    intro o ho hko
    rcases List.mem_singleton.mp ho with rfl
    norm_num [jsMod, jsTrunc, FRAME_INTERVAL_SECONDS]
  exact ⟨hk, hpresent, hall, c5_zero_count_retained _ _ hk hpresent hall⟩

/-! ## C8: totality and first-match-wins of the label categorizer -/

theorem clStep_bucket (acc : CategorizedLabels) (l : DetectedLabel) :
    clStep acc l =
      match bucketOf l.description with
      | .rooms => { acc with rooms := acc.rooms ++ [⟨l.description, l.confidence⟩] }
      | .styles => { acc with styles := acc.styles ++ [⟨l.description, l.confidence⟩] }
      | .materials => { acc with materials := acc.materials ++ [⟨l.description, l.confidence⟩] }
      | .features => { acc with features := acc.features ++ [⟨l.description, l.confidence⟩] }
      | .other => { acc with other := acc.other ++ [⟨l.description, l.confidence⟩] } := by
  simp only [clStep, bucketOf]
  split_ifs <;> rfl

theorem bucketFilter_cons (l : DetectedLabel) (ls : List DetectedLabel) (b : Bucket) :
    bucketFilter (l :: ls) b =
      (if bucketOf l.description = b then [(⟨l.description, l.confidence⟩ : LabelEntry)] else [])
        ++ bucketFilter ls b := by
  unfold bucketFilter
  by_cases h : bucketOf l.description = b <;> simp [List.filter_cons, h]

theorem clFold (labels : List DetectedLabel) (acc : CategorizedLabels) :
    labels.foldl clStep acc =
      ⟨acc.rooms ++ bucketFilter labels .rooms,
       acc.styles ++ bucketFilter labels .styles,
       acc.materials ++ bucketFilter labels .materials,
       acc.features ++ bucketFilter labels .features,
       acc.other ++ bucketFilter labels .other⟩ := by
  induction labels generalizing acc with
  | nil => simp [bucketFilter]
  | cons l ls ih =>
    simp only [List.foldl_cons, ih, clStep_bucket]
    cases hb : bucketOf l.description <;>
      simp [hb, bucketFilter_cons, List.append_assoc]

theorem bucketFilter_length_sum (labels : List DetectedLabel) :
    (bucketFilter labels .rooms).length + (bucketFilter labels .styles).length +
      (bucketFilter labels .materials).length + (bucketFilter labels .features).length +
      (bucketFilter labels .other).length = labels.length := by
  induction labels with
  | nil => rfl
  | cons l ls ih =>
    cases hb : bucketOf l.description <;>
      simp [bucketFilter_cons, hb] <;> omega

/-- C8: label categorization is total and deterministic — `categorizeLabels`
equals the partition of its input by the total function `bucketOf`, which
tests the keyword lists in the fixed order rooms, styles, materials, then
the "feature"/"design" substrings, else `other`, with substring containment
on the lowercased description and first match winning; consequently every
label lands in exactly one bucket and the bucket sizes sum to the input
length. -/
theorem c8_categorization_total (labels : List DetectedLabel) :
    categorizeLabels labels =
      ⟨bucketFilter labels .rooms, bucketFilter labels .styles,
       bucketFilter labels .materials, bucketFilter labels .features,
       bucketFilter labels .other⟩ ∧
    (categorizeLabels labels).rooms.length +
      (categorizeLabels labels).styles.length +
      (categorizeLabels labels).materials.length +
      (categorizeLabels labels).features.length +
      (categorizeLabels labels).other.length = labels.length := by
  have h := clFold labels ⟨[], [], [], [], []⟩
  simp only [List.nil_append] at h
  refine ⟨h, ?_⟩
  rw [categorizeLabels, h]
  exact bucketFilter_length_sum labels

/-! ## C9: fallback identifiers of the Firestore service -/

theorem leadMatch_append (p rest : List Char) :
    leadMatch p (p ++ rest) = true := by
  induction p with
  | nil => rfl
  | cons c cs ih => simp [leadMatch, ih]

/-- C9 (amended): the store operations degrade to a `fallback_` identifier
instead of throwing only when the backing store cannot be *initialized*;
with valid input and initialization unavailable both return
`fallback_<fileName>_<now>`, which carries the `fallback_` tag. -/
theorem c9_fallback_on_unavailable (env : FsEnv) (fn fid : String) (now : ℕ)
    (hfn : fn ≠ "") (hfid : fid ≠ "") (hinit : env.initWorks = false) :
    storeVideoAnalysis env false fn true now = .ok (storeFallback fn now) ∧
    storeProcessedAnalysis env false fn fid true now = .ok (storeFallback fn now) ∧
    strStartsWith (storeFallback fn now) "fallback_" = true := by
  refine ⟨?_, ?_, ?_⟩
  · simp [storeVideoAnalysis, hfn, hinit]
  · simp [storeProcessedAnalysis, hfn, hfid, hinit]
  · have h : storeFallback fn now =
        "fallback_" ++ (fn ++ "_" ++ toString now) := by
      simp [storeFallback, String.append_assoc]
    rw [h]
    show leadMatch "fallback_".data ("fallback_" ++ (fn ++ "_" ++ toString now)).data = true
    rw [String.data_append]
    exact leadMatch_append _ _

/-- C9: witness instantiating `c9_fallback_on_unavailable` at a concrete
unavailable-store environment. -/
theorem c9_fallback_on_unavailable_witness :
    ("video.mp4" : String) ≠ "" ∧ ("raw1" : String) ≠ "" ∧
    FsEnv.initWorks ⟨false, true⟩ = false ∧
    (storeVideoAnalysis ⟨false, true⟩ false "video.mp4" true 0 =
      .ok (storeFallback "video.mp4" 0) ∧
     storeProcessedAnalysis ⟨false, true⟩ false "video.mp4" "raw1" true 0 =
      .ok (storeFallback "video.mp4" 0) ∧
     strStartsWith (storeFallback "video.mp4" 0) "fallback_" = true) :=
  ⟨by decide, by decide, rfl,
    c9_fallback_on_unavailable ⟨false, true⟩ "video.mp4" "raw1" 0
      (by decide) (by decide) rfl⟩

/-- C9 (counterexample): when the store initialized successfully but the
write attempt itself fails, `storeVideoAnalysis` rethrows the error — it
does not return a fallback identifier. -/
theorem c9_counterexample :
    storeVideoAnalysis ⟨true, false⟩ true "video.mp4" true 0 =
      .error "write failed" := by
  simp [storeVideoAnalysis]

/-! ## C2: the single-flight invariant of the processing queue -/

theorem inv_tryStart (t : ℕ) (s : QState)
    (h : s.running.length = if s.isProcessing then 1 else 0) :
    (tryStart t s).running.length = if (tryStart t s).isProcessing then 1 else 0 := by
  unfold tryStart
  by_cases hp : s.isProcessing
  · simp [hp, h]
  · cases hq : s.queue with
    | nil => simp [hp, hq, h]
    | cons j rest =>
      simp [hp, hq] at h ⊢
      exact h

theorem inv_complete (t : ℕ) (ok : Bool) (s : QState)
    (h : s.running.length = if s.isProcessing then 1 else 0) :
    (complete t ok s).running.length =
      if (complete t ok s).isProcessing then 1 else 0 := by
  unfold complete
  cases hr : s.running with
  | nil =>
    simp only [hr]
    rw [hr] at h
    exact h
  | cons j rest =>
    have hrest : rest.length = 0 := by
      rw [hr] at h
      by_cases hp : s.isProcessing
      · rw [if_pos hp] at h; simpa using h
      · rw [if_neg hp] at h; simp at h
    simp only [hr]
    cases ok <;> by_cases hq : s.queue.isEmpty <;> simp [hq, hrest]

theorem inv_arrive (t : ℕ) (r : Req) (s : QState)
    (h : s.running.length = if s.isProcessing then 1 else 0) :
    (arrive t r s).2.running.length =
      if (arrive t r s).2.isProcessing then 1 else 0 := by
  unfold arrive
  by_cases hm : msgSeen s.processedMessageIds r.messageId
  · simpa [hm, QState.respond]
  · cases hn : r.name with
    | none => simpa [hm, hn, QState.respond]
    | some fn =>
      by_cases h1 : fn ∈ s.processedFiles
      · simpa [hm, hn, h1, QState.respond]
      · by_cases h2 : fn ∈ s.failedFiles
        · simpa [hm, hn, h1, h2, QState.respond]
        · by_cases h3 : isVideoFile fn
          · by_cases h4 : MAX_QUEUE_SIZE ≤ s.queue.length
            · simpa [hm, hn, h1, h2, h3, h4, QState.respond]
            · by_cases h5 : s.queue.any (fun item => item.fileName == fn)
              · simpa [hm, hn, h1, h2, h3, h4, h5, QState.respond]
              · simp only [hm, hn, h1, h2, h3, h4, h5]
                simp only [Bool.false_eq_true, if_false, not_true, ite_false,
                  if_neg, if_pos, not_false_iff]
                exact inv_tryStart t _ (by simpa using h)
          · simpa [hm, hn, h1, h2, h3, QState.respond]

theorem inv_timerFire (t : ℕ) (s : QState)
    (h : s.running.length = if s.isProcessing then 1 else 0) :
    (timerFire t s).running.length =
      if (timerFire t s).isProcessing then 1 else 0 := by
  unfold timerFire
  by_cases ht : s.timer = some t
  · simp only [ht, if_pos]
    exact inv_tryStart t _ (by simpa using h)
  · simpa [ht]

theorem inv_reachable (s : QState) (h : Reachable s) :
    s.running.length = if s.isProcessing then 1 else 0 := by
  induction h with
  | init => rfl
  | step t e hr ih =>
    cases e with
    | arrive r => exact inv_arrive t r _ ih
    | complete ok => exact inv_complete t ok _ ih
    | timerFire => exact inv_timerFire t _ ih

theorem arrive_busy (t : ℕ) (r : Req) (s : QState)
    (hp : s.isProcessing = true) :
    (arrive t r s).2.running = s.running ∧
    ((arrive t r s).2.queue = s.queue ∨
      ∃ j, (arrive t r s).2.queue = s.queue ++ [j]) := by
  unfold arrive
  by_cases hm : msgSeen s.processedMessageIds r.messageId
  · simp [hm, QState.respond]
  · cases hn : r.name with
    | none => simp [hm, hn, QState.respond]
    | some fn =>
      by_cases h1 : fn ∈ s.processedFiles
      · simp [hm, hn, h1, QState.respond]
      · by_cases h2 : fn ∈ s.failedFiles
        · simp [hm, hn, h1, h2, QState.respond]
        · by_cases h3 : isVideoFile fn
          · by_cases h4 : MAX_QUEUE_SIZE ≤ s.queue.length
            · simp [hm, hn, h1, h2, h3, h4, QState.respond]
            · by_cases h5 : s.queue.any (fun item => item.fileName == fn)
              · simp [hm, hn, h1, h2, h3, h4, h5, QState.respond]
              · simp [hm, hn, h1, h2, h3, h4, h5, tryStart, hp]
          · simp [hm, hn, h1, h2, h3, QState.respond]

/-- C2: in every reachable state of the queue machine at most one job is
running (the `isProcessing` guard is set if and only if exactly one job is
inside `processVideo`), and while the flag is set an inbound request never
starts a run — it leaves the running set unchanged and at most appends the
admitted job to the back of the FIFO wait list. -/
theorem c2_single_flight (s : QState) (hs : Reachable s) :
    s.running.length ≤ 1 ∧
    (s.isProcessing = true → ∀ (t : ℕ) (r : Req),
      (arrive t r s).2.running = s.running ∧
      ((arrive t r s).2.queue = s.queue ∨
        ∃ j, (arrive t r s).2.queue = s.queue ++ [j])) := by
  constructor
  · have h := inv_reachable s hs
    rw [h]
    split <;> omega
  · intro hp t r
    exact arrive_busy t r s hp

/-- C2: witness applying `c2_single_flight` to the reachable state after
one admitted arrival. -/
theorem c2_single_flight_witness :
    Reachable (stepEv 0 (.arrive ⟨some "m1", "bkt", some "f1.mp4"⟩) QState.init) ∧
    ((stepEv 0 (.arrive ⟨some "m1", "bkt", some "f1.mp4"⟩)
        QState.init).running.length ≤ 1 ∧
      ((stepEv 0 (.arrive ⟨some "m1", "bkt", some "f1.mp4"⟩)
          QState.init).isProcessing = true → ∀ (t : ℕ) (r : Req),
        (arrive t r (stepEv 0 (.arrive ⟨some "m1", "bkt", some "f1.mp4"⟩)
            QState.init)).2.running =
          (stepEv 0 (.arrive ⟨some "m1", "bkt", some "f1.mp4"⟩)
            QState.init).running ∧
        ((arrive t r (stepEv 0 (.arrive ⟨some "m1", "bkt", some "f1.mp4"⟩)
            QState.init)).2.queue =
          (stepEv 0 (.arrive ⟨some "m1", "bkt", some "f1.mp4"⟩)
            QState.init).queue ∨
          ∃ j, (arrive t r (stepEv 0 (.arrive ⟨some "m1", "bkt", some "f1.mp4"⟩)
            QState.init)).2.queue =
            (stepEv 0 (.arrive ⟨some "m1", "bkt", some "f1.mp4"⟩)
              QState.init).queue ++ [j]))) :=
  ⟨Reachable.step 0 _ Reachable.init,
    c2_single_flight _ (Reachable.step 0 _ Reachable.init)⟩

/-! ## C1: deduplication of duplicate deliveries -/

/-- C1 (amended): in the mark-after-success variant a redelivery is
short-circuited — never enqueued, never starting a run, answered with an
HTTP success or the 429 backpressure rejection — whenever its message id
is already recorded, or its file is already processed or failed, or its
file is still waiting in the queue.  (A redelivery while the first copy is
*currently running* does not satisfy any of these and is re-enqueued; see
`c1_counterexample`.) -/
theorem c1_dedup_short_circuit (s : QState) (t : ℕ) (r : Req) (m fn : String)
    (hm : r.messageId = some m) (hn : r.name = some fn)
    (h : m ∈ s.processedMessageIds ∨ fn ∈ s.processedFiles ∨
      fn ∈ s.failedFiles ∨ fn ∈ s.queue.map Job.fileName) :
    (arrive t r s).2.queue = s.queue ∧
    (arrive t r s).2.runs = s.runs ∧
    isShortCircuit (arrive t r s).1 = true := by
  unfold arrive
  by_cases hseen : msgSeen s.processedMessageIds r.messageId
  · simp [hseen, QState.respond, isShortCircuit, HResp.isSuccess]
  · have hmem : m ∉ s.processedMessageIds := by
      intro hmm
      apply hseen
      rw [hm]
      simpa [msgSeen] using hmm
    rw [hn]
    by_cases h1 : fn ∈ s.processedFiles
    · simp [hseen, h1, QState.respond, isShortCircuit, HResp.isSuccess]
    · by_cases h2 : fn ∈ s.failedFiles
      · simp [hseen, h1, h2, QState.respond, isShortCircuit, HResp.isSuccess]
      · by_cases h3 : isVideoFile fn
        · by_cases h4 : MAX_QUEUE_SIZE ≤ s.queue.length
          · simp [hseen, h1, h2, h3, h4, QState.respond, isShortCircuit,
              HResp.isSuccess]
          · by_cases h5 : s.queue.any (fun item => item.fileName == fn)
            · simp [hseen, h1, h2, h3, h4, h5, QState.respond, isShortCircuit,
                HResp.isSuccess]
            · exfalso
              rcases h with hma | hb | hc | hd
              · exact hmem hma
              · exact h1 hb
              · exact h2 hc
              · obtain ⟨j, hj, hjf⟩ := List.mem_map.mp hd
                exact h5 (List.any_eq_true.mpr ⟨j, hj, by simp [hjf]⟩)
        · simp [hseen, h1, h2, h3, QState.respond, isShortCircuit,
            HResp.isSuccess]

/-- C1: witness applying `c1_dedup_short_circuit` to a redelivery whose
file is still waiting in the queue. -/
theorem c1_dedup_short_circuit_witness :
    (⟨some "m1", "b", some "a.mp4"⟩ : Req).messageId = some "m1" ∧
    (⟨some "m1", "b", some "a.mp4"⟩ : Req).name = some "a.mp4" ∧
    (("m1" : String) ∈ ({ QState.init with
        queue := [⟨"b", "a.mp4", some "m0"⟩] } : QState).processedMessageIds ∨
      ("a.mp4" : String) ∈ ({ QState.init with
        queue := [⟨"b", "a.mp4", some "m0"⟩] } : QState).processedFiles ∨
      ("a.mp4" : String) ∈ ({ QState.init with
        queue := [⟨"b", "a.mp4", some "m0"⟩] } : QState).failedFiles ∨
      ("a.mp4" : String) ∈ (({ QState.init with
        queue := [⟨"b", "a.mp4", some "m0"⟩] } : QState).queue.map Job.fileName)) ∧
    ((arrive 7 ⟨some "m1", "b", some "a.mp4"⟩ { QState.init with
        queue := [⟨"b", "a.mp4", some "m0"⟩] }).2.queue =
      ({ QState.init with queue := [⟨"b", "a.mp4", some "m0"⟩] } : QState).queue ∧
     (arrive 7 ⟨some "m1", "b", some "a.mp4"⟩ { QState.init with
        queue := [⟨"b", "a.mp4", some "m0"⟩] }).2.runs =
      ({ QState.init with queue := [⟨"b", "a.mp4", some "m0"⟩] } : QState).runs ∧
     isShortCircuit (arrive 7 ⟨some "m1", "b", some "a.mp4"⟩ { QState.init with
        queue := [⟨"b", "a.mp4", some "m0"⟩] }).1 = true) :=
  ⟨rfl, rfl, by decide,
    c1_dedup_short_circuit _ 7 _ "m1" "a.mp4" rfl rfl (by decide)⟩

/-- C1 (counterexample): submitting the same push envelope (message id
"d1", file "walkthrough.mp4") twice in sequence, the second arriving while
the first copy is running, yields two HTTP 200 success responses but *two*
processing runs — the redelivery is re-enqueued and re-processed, so the
"exactly one enqueued/processed job regardless of whether the first copy
is still queued, currently running, or already finished" claim is false. -/
theorem c1_counterexample :
    (let sF := runTrace QState.init
      [(0, .arrive ⟨some "d1", "bkt", some "walkthrough.mp4"⟩),
       (5, .arrive ⟨some "d1", "bkt", some "walkthrough.mp4"⟩),
       (100, .complete true), (12100, .timerFire), (12200, .complete true)];
     sF.runs = [("walkthrough.mp4", 0), ("walkthrough.mp4", 12100)] ∧
     sF.responses = [HResp.processedOk, HResp.processedOk] ∧
     sF.runs.length ≠ 1) := by decide

/-! ## C3: the 12000 ms cooldown between consecutive jobs -/

/-- C3: a trace in which the first job completes at time 100 with an empty
queue and a second request arrives at time 1000; the arrival triggers
`processQueue` directly and the second run starts at 1000, earlier than
completion + 12000 — the cooldown holds only for jobs already waiting at
completion time and is bypassed by a new arrival, contradicting the
claimed unconditional cooldown (and the code's own comment "Wait at least
12 seconds between processing videos"). -/
theorem c3_cooldown_bypassed :
    (let sF := runTrace QState.init
      [(0, .arrive ⟨some "m1", "bkt", some "f1.mp4"⟩),
       (100, .complete true),
       (1000, .arrive ⟨some "m2", "bkt", some "f2.mp4"⟩)];
     sF.runs = [("f1.mp4", 0), ("f2.mp4", 1000)] ∧
     sF.completions = [("f1.mp4", 100)]) ∧
    1000 < 100 + PROCESSING_DELAY := by decide

/-! ## C10: queue-full rejection still marks the delivery id as seen -/

theorem mem_setAdd (l : List String) (x y : String) (h : x ∈ l) :
    x ∈ setAdd l y := by
  unfold setAdd
  by_cases hy : y ∈ l
  · simpa [hy]
  · simp [hy, List.mem_append, h]

theorem mem_setAdd_self (l : List String) (x : String) : x ∈ setAdd l x := by
  unfold setAdd
  by_cases hx : x ∈ l <;> simp [hx]

theorem mem_markMsg (ids : List String) (mid : Option String) (x : String)
    (h : x ∈ ids) : x ∈ markMsg ids mid := by
  cases mid with
  | none => exact h
  | some y => exact mem_setAdd ids x y h

theorem tryStart_ids (t : ℕ) (s : QState) :
    (tryStart t s).processedMessageIds = s.processedMessageIds := by
  unfold tryStart
  by_cases hp : s.isProcessing
  · simp [hp]
  · cases hq : s.queue <;> simp [hp, hq]

theorem arrive_ids_mono (t : ℕ) (r : Req) (s : QState) (x : String)
    (h : x ∈ s.processedMessageIds) :
    x ∈ (arrive t r s).2.processedMessageIds := by
  unfold arrive
  by_cases hm : msgSeen s.processedMessageIds r.messageId
  · simpa [hm, QState.respond]
  · cases hn : r.name with
    | none => simpa [hm, hn, QState.respond]
    | some fn =>
      by_cases h1 : fn ∈ s.processedFiles
      · simp [hm, hn, h1, QState.respond]
        exact mem_markMsg _ _ _ h
      · by_cases h2 : fn ∈ s.failedFiles
        · simp [hm, hn, h1, h2, QState.respond]
          exact mem_markMsg _ _ _ h
        · by_cases h3 : isVideoFile fn
          · by_cases h4 : MAX_QUEUE_SIZE ≤ s.queue.length
            · simp [hm, hn, h1, h2, h3, h4, QState.respond]
              exact mem_markMsg _ _ _ h
            · by_cases h5 : s.queue.any (fun item => item.fileName == fn)
              · simp [hm, hn, h1, h2, h3, h4, h5, QState.respond]
                exact mem_markMsg _ _ _ h
              · simp only [hm, hn, h1, h2, h3, h4, h5]
                simp only [Bool.false_eq_true, if_false, not_true, ite_false,
                  if_neg, if_pos, not_false_iff]
                rw [tryStart_ids]
                exact h
          · simp [hm, hn, h1, h2, h3, QState.respond]
            exact mem_markMsg _ _ _ h

theorem complete_ids_mono (t : ℕ) (ok : Bool) (s : QState) (x : String)
    (h : x ∈ s.processedMessageIds) :
    x ∈ (complete t ok s).processedMessageIds := by
  unfold complete
  cases hr : s.running with
  | nil => exact h
  | cons j rest =>
    cases ok <;> by_cases hq : s.queue.isEmpty <;>
      simp [hq, mem_markMsg _ _ _ h, h]

theorem timerFire_ids_mono (t : ℕ) (s : QState) (x : String)
    (h : x ∈ s.processedMessageIds) :
    x ∈ (timerFire t s).processedMessageIds := by
  unfold timerFire
  by_cases ht : s.timer = some t
  · rw [if_pos ht, tryStart_ids]
    exact h
  · rw [if_neg ht]
    exact h

/-- C10: when a push delivery is rejected with 429 because the wait list is
full, its message id is added to the seen set at rejection time; any later
redelivery of the same envelope against a state that has the id is
short-circuited by the middleware with 200 "Message already processed",
leaving the queue and the run log untouched; and no step of the machine
ever removes an id from the seen set. -/
theorem c10_queue_full_marks_seen (s : QState) (t : ℕ) (r : Req) (m : String)
    (hm : r.messageId = some m)
    (hresp : (arrive t r s).1 = some HResp.queueFull) :
    m ∈ (arrive t r s).2.processedMessageIds ∧
    (∀ (t2 : ℕ) (s2 : QState), m ∈ s2.processedMessageIds →
      (arrive t2 r s2).1 = some HResp.msgAlreadyProcessed ∧
      (arrive t2 r s2).2.queue = s2.queue ∧
      (arrive t2 r s2).2.runs = s2.runs) ∧
    (∀ (t2 : ℕ) (e : Ev) (s2 : QState), m ∈ s2.processedMessageIds →
      m ∈ (stepEv t2 e s2).processedMessageIds) := by
  refine ⟨?_, ?_, ?_⟩
  · unfold arrive at hresp ⊢
    by_cases hseen : msgSeen s.processedMessageIds r.messageId
    · simp [hseen] at hresp
    · cases hn : r.name with
      | none => simp [hseen, hn] at hresp
      | some fn =>
        by_cases h1 : fn ∈ s.processedFiles
        · simp [hseen, hn, h1] at hresp
        · by_cases h2 : fn ∈ s.failedFiles
          · simp [hseen, hn, h1, h2] at hresp
          · by_cases h3 : isVideoFile fn
            · by_cases h4 : MAX_QUEUE_SIZE ≤ s.queue.length
              · rw [hm] at hseen
                simp [hseen, hn, h1, h2, h3, h4, QState.respond, hm, markMsg]
                exact mem_setAdd_self _ _
              · by_cases h5 : s.queue.any (fun item => item.fileName == fn)
                · simp [hseen, hn, h1, h2, h3, h4, h5] at hresp
                · simp [hseen, hn, h1, h2, h3, h4, h5] at hresp
            · simp [hseen, hn, h1, h2, h3] at hresp
  · intro t2 s2 h2
    have hseen : msgSeen s2.processedMessageIds r.messageId = true := by
      rw [hm]
      simpa [msgSeen] using h2
    unfold arrive
    simp [hseen, QState.respond]
  · intro t2 e s2 h2
    cases e with
    | arrive r2 => exact arrive_ids_mono t2 r2 s2 m h2
    | complete ok => exact complete_ids_mono t2 ok s2 m h2
    | timerFire => exact timerFire_ids_mono t2 s2 m h2

/-- C10: witness applying `c10_queue_full_marks_seen` to a full queue of
ten waiting jobs and a fresh delivery. -/
theorem c10_queue_full_marks_seen_witness :
    (⟨some "mx", "b", some "new.mp4"⟩ : Req).messageId = some "mx" ∧
    (arrive 0 ⟨some "mx", "b", some "new.mp4"⟩ { QState.init with
      queue := [⟨"b", "q0.mp4", none⟩, ⟨"b", "q1.mp4", none⟩, ⟨"b", "q2.mp4", none⟩,
        ⟨"b", "q3.mp4", none⟩, ⟨"b", "q4.mp4", none⟩, ⟨"b", "q5.mp4", none⟩,
        ⟨"b", "q6.mp4", none⟩, ⟨"b", "q7.mp4", none⟩, ⟨"b", "q8.mp4", none⟩,
        ⟨"b", "q9.mp4", none⟩] }).1 = some HResp.queueFull ∧
    ("mx" : String) ∈ (arrive 0 ⟨some "mx", "b", some "new.mp4"⟩ { QState.init with
      queue := [⟨"b", "q0.mp4", none⟩, ⟨"b", "q1.mp4", none⟩, ⟨"b", "q2.mp4", none⟩,
        ⟨"b", "q3.mp4", none⟩, ⟨"b", "q4.mp4", none⟩, ⟨"b", "q5.mp4", none⟩,
        ⟨"b", "q6.mp4", none⟩, ⟨"b", "q7.mp4", none⟩, ⟨"b", "q8.mp4", none⟩,
        ⟨"b", "q9.mp4", none⟩] }).2.processedMessageIds :=
  ⟨rfl, by decide,
    (c10_queue_full_marks_seen _ 0 _ "mx" rfl (by decide)).1⟩
